import Mathlib

/-! Node labelling of kube-vip (`pkg/manager/node_labeling.go`).

A shallow embedding of `EscapeJSONPointer`, `applyPatchLabels` and
`applyNodeLabel`, followed by the properties established for them.

Go strings are modelled as Lean strings (sequences of characters).  The two
patterns the code replaces, `~` and `/`, are single ASCII bytes, which never
occur inside a multi-byte UTF-8 sequence, so replacing them character by
character and byte by byte gives the same result.
-/

namespace KubeVip

/-! ## Strings -/

/-- The scanning loop of Go's `strings.Replace(s, old, new, -1)` for a
non-empty `old`: walk the input from the left; where `old` starts, emit `new`
and skip the whole occurrence (the counter holds how many characters of the
occurrence are still to be skipped); elsewhere copy one character. -/
def replaceFrom (old new : List Char) : Nat → List Char → List Char
  | _, [] => []
  | k + 1, _ :: cs => replaceFrom old new k cs
  | 0, c :: cs =>
    if old.isPrefixOf (c :: cs) then new ++ replaceFrom old new (old.length - 1) cs
    else c :: replaceFrom old new 0 cs

/-- Go's `strings.ReplaceAll(s, old, new)`: every non-overlapping occurrence of
`old` in `s`, found left to right, is replaced by `new`.  An empty `old`
matches at the beginning of the string and after each character. -/
def ReplaceAll (s old new : String) : String :=
  if old.data = [] then ⟨new.data ++ s.data.flatMap (fun c => c :: new.data)⟩
  else ⟨replaceFrom old.data new.data 0 s.data⟩

/-- Source lines 27-30: `EscapeJSONPointer` escapes a string for use in JSON
Patch paths. -/
def EscapeJSONPointer (s : String) : String :=
  ReplaceAll (ReplaceAll s "~" "~0") "/" "~1"

/-- The same two replacements as `EscapeJSONPointer`, applied in the opposite
order: every `/` becomes `~1` first, then every `~` becomes `~0`. -/
def escapeSlashFirst (s : String) : String :=
  ReplaceAll (ReplaceAll s "/" "~1") "~" "~0"

/-- The per-character rule of the specification: `~` gives `~0`, `/` gives
`~1`, every other character gives itself. -/
def escapeChar (c : Char) : String :=
  if c = '~' then "~0" else if c = '/' then "~1" else String.singleton c

/-- The reference transform of the specification: the concatenation, in order,
of `escapeChar c` for each character `c` of `s`. -/
def escapeReference (s : String) : String :=
  String.join (s.data.map escapeChar)

/-- Decoding of one JSON-Pointer reference token in a single left-to-right
pass: `~1` gives `/`, `~0` gives `~`, everything else is copied. -/
def unescapeList : List Char → List Char
  | [] => []
  | [c] => [c]
  | c :: d :: r =>
    if c = '~' ∧ d = '1' then '/' :: unescapeList r
    else if c = '~' ∧ d = '0' then '~' :: unescapeList r
    else c :: unescapeList (d :: r)

/-- Characters of `escapeChar c`. -/
def escList (c : Char) : List Char :=
  if c = '~' then ['~', '0'] else if c = '/' then ['~', '1'] else [c]

/-- Characters the reversed-order transform produces for `c`. -/
def revList (c : Char) : List Char :=
  if c = '/' then ['~', '0', '1'] else if c = '~' then ['~', '0'] else [c]

/-! ## The node labelling routine -/

/-- Source line 16: the label key used by the callers. -/
def nodeLabelIndex : String := "kube-vip.io/has-ip"

/-- Source line 17: the same key, already escaped for a JSON-Patch path. -/
def nodeLabelJSONPath : String := "kube-vip.io~1has-ip"

/-- Source lines 20-24: one JSON-Patch entry. -/
structure patchStringLabel where
  Op : String
  Path : String
  Value : String
deriving DecidableEq, Repr

/-- The constant `types.JSONPatchType` of `k8s.io/apimachinery`. -/
def JSONPatchType : String := "application/json-patch+json"

/-- The part of a node object the routine reads: the label mapping
(`node.Labels`, a Go `map[string]string`). -/
structure Node where
  Labels : String → Option String

/-- The two calls the routine makes on `clientSet.CoreV1().Nodes()`, over an
API-server state of type `σ`; `β` is the type of a serialised patch body.
`Get` only reads; `Patch` returns the server state after the call. -/
structure Clientset (σ β : Type) where
  Get : σ → String → Except String Node
  Patch : σ → String → String → β → Except String Node × σ

/-- What one run does that is visible from outside: the API calls it makes and
the log lines it writes (a log line is recorded by its format string). -/
inductive Event (β : Type) where
  | Get (name : String)
  | Patch (name : String) (pt : String) (data : β)
  | Errorf (format : String)
  | Debugf (format : String)
deriving DecidableEq

/-- Source lines 58-79: `applyPatchLabels`.  `Marshal` stands for
`json.Marshal` on the one-element patch list. -/
def applyPatchLabels {σ β : Type} (Marshal : List patchStringLabel → Except String β)
    (clientSet : Clientset σ β) (st : σ) (name operation path value : String) :
    σ × List (Event β) :=
  let patchLabels : List patchStringLabel := [⟨operation, path, value⟩]
  match Marshal patchLabels with
  | .error _ => (st, [.Errorf "node patch marshaling failed. error: %v"])
  | .ok patchData =>
    match clientSet.Patch st name JSONPatchType patchData with
    | (.error _, st2) =>
      (st2, [.Patch name JSONPatchType patchData, .Errorf "can\x27t patch node %s. error: %v"])
    | (.ok _, st2) =>
      (st2, [.Patch name JSONPatchType patchData, .Debugf "updated node %s labels: %+v"])

/-- Source lines 32-56: `applyNodeLabel`.  The result is the API-server state
after the run together with the trace of the run. -/
def applyNodeLabel {σ β : Type} (Marshal : List patchStringLabel → Except String β)
    (clientSet : Clientset σ β) (st : σ) (label id identity : String) :
    σ × List (Event β) :=
  match clientSet.Get st id with
  | .error _ => (st, [.Get id, .Errorf "can\x27t query node %s labels. error: %v"])
  | .ok node =>
    let ok := (node.Labels label).isSome
    let path := "/metadata/labels/" ++ EscapeJSONPointer label
    if (!ok) && id == identity then
      let r := applyPatchLabels Marshal clientSet st id "add" path "true"
      (r.1, [.Get id, .Debugf "node %s labels: %+v",
        .Debugf "setting node label \x60%s=true\x60 on %s"] ++ r.2)
    else if ok then
      let r := applyPatchLabels Marshal clientSet st id "remove" path "true"
      (r.1, [.Get id, .Debugf "node %s labels: %+v",
        .Debugf "removing node label \x60%s=true\x60 on %s"] ++ r.2)
    else
      (st, [.Get id, .Debugf "node %s labels: %+v", .Debugf "no node label change needed"])

/-- The mutating API calls of a trace, in order: node name, patch type, body. -/
def patchCalls {β : Type} : List (Event β) → List (String × String × β)
  | [] => []
  | .Patch name pt data :: es => (name, pt, data) :: patchCalls es
  | _ :: es => patchCalls es

/-! ## A model of the API server

The API server is outside the repository.  It is modelled as a mapping from
node names to label mappings on which a JSON Patch of `add` and `remove`
operations under `/metadata/labels/` is applied as RFC 6902 prescribes; the
patch body is the operation list itself. -/

/-- State of the modelled API server: the label mapping of every node that
exists. -/
abbrev Cluster := String → Option (String → Option String)

/-- The label key a JSON-Pointer path `/metadata/labels/<token>` addresses. -/
def labelKeyOfPath (path : String) : Option String :=
  if "/metadata/labels/".data.isPrefixOf path.data then
    let token := path.data.drop "/metadata/labels/".length
    if token.contains '/' then none else some ⟨unescapeList token⟩
  else none

/-- One JSON-Patch operation on a label mapping: `add` sets the key (replacing
an existing value), `remove` deletes a key that must exist. -/
def applyOperation (labels : String → Option String) (p : patchStringLabel) :
    Except String (String → Option String) :=
  match labelKeyOfPath p.Path with
  | none => .error "unsupported path"
  | some key =>
    if p.Op = "add" then .ok (fun k => if k = key then some p.Value else labels k)
    else if p.Op = "remove" then
      if (labels key).isSome then .ok (fun k => if k = key then none else labels k)
      else .error "remove operation does not apply: doc is missing path"
    else .error "unsupported operation"

/-- A JSON Patch is applied operation by operation; the first failure fails
the whole patch. -/
def applyOperations (labels : String → Option String) :
    List patchStringLabel → Except String (String → Option String)
  | [] => .ok labels
  | p :: ps =>
    match applyOperation labels p with
    | .error e => .error e
    | .ok labels2 => applyOperations labels2 ps

/-- The modelled API server as a client: `Get` fails on a node that does not
exist; `Patch` applies the operations to the node and stores the result, and
leaves the state alone when it fails. -/
def apiServer : Clientset Cluster (List patchStringLabel) where
  Get st name :=
    match st name with
    | none => .error "not found"
    | some labels => .ok ⟨labels⟩
  Patch st name pt data :=
    if pt = JSONPatchType then
      match st name with
      | none => (.error "not found", st)
      | some labels =>
        match applyOperations labels data with
        | .error e => (.error e, st)
        | .ok labels2 => (.ok ⟨labels2⟩, fun n => if n = name then some labels2 else st n)
    else (.error "unsupported patch type", st)

/-- The value of label `key` on node `name`, if the node exists and carries
the label. -/
def labelOf (st : Cluster) (name key : String) : Option String :=
  (st name).bind (fun labels => labels key)

/-- A cluster whose only node, `node-a`, has no labels. -/
def clusterUnlabelled : Cluster :=
  fun n => if n = "node-a" then some (fun _ => none) else none

/-- A cluster whose only node, `node-a`, carries `kube-vip.io/has-ip=true`. -/
def clusterLabelled : Cluster :=
  fun n => if n = "node-a" then some (fun k => if k = nodeLabelIndex then some "true" else none)
    else none

/-- A cluster without nodes: every read fails. -/
def clusterEmpty : Cluster := fun _ => none

/-! ## Lemmas on the string functions -/

theorem replaceFrom_single (a : Char) (new : List Char) (s : List Char) :
    replaceFrom [a] new 0 s = s.flatMap (fun c => if c = a then new else [c]) := by
  induction s with
  | nil => simp [replaceFrom]
  | cons c cs ih =>
    by_cases h : c = a
    · subst h
      simp [replaceFrom, List.isPrefixOf, ih]
    · have h2 : ¬ a = c := fun e => h e.symm
      simp [replaceFrom, List.isPrefixOf, ih, h, h2]

theorem EscapeJSONPointer_data (s : String) :
    (EscapeJSONPointer s).data = s.data.flatMap escList := by
  have h1 : ("~" : String).data = ['~'] := rfl
  have h2 : ("/" : String).data = ['/'] := rfl
  have h3 : ("~0" : String).data = ['~', '0'] := rfl
  have h4 : ("~1" : String).data = ['~', '1'] := rfl
  simp only [EscapeJSONPointer, ReplaceAll, h1, h2, h3, h4, List.cons_ne_nil, if_false,
    replaceFrom_single]
  induction s.data with
  | nil => rfl
  | cons c cs ih =>
    simp only [List.flatMap_cons, List.flatMap_append, ih]
    congr 1
    by_cases h : c = '~'
    · subst h
      simp [escList]
    · by_cases h' : c = '/'
      · subst h'
        simp [escList]
      · simp [escList, h, h']

theorem escapeSlashFirst_data (s : String) :
    (escapeSlashFirst s).data = s.data.flatMap revList := by
  have h1 : ("~" : String).data = ['~'] := rfl
  have h2 : ("/" : String).data = ['/'] := rfl
  have h3 : ("~0" : String).data = ['~', '0'] := rfl
  have h4 : ("~1" : String).data = ['~', '1'] := rfl
  simp only [escapeSlashFirst, ReplaceAll, h1, h2, h3, h4, List.cons_ne_nil, if_false,
    replaceFrom_single]
  induction s.data with
  | nil => rfl
  | cons c cs ih =>
    simp only [List.flatMap_cons, List.flatMap_append, ih]
    congr 1
    by_cases h : c = '/'
    · subst h
      simp [revList]
    · by_cases h' : c = '~'
      · subst h'
        simp [revList]
      · simp [revList, h, h']

theorem unescapeList_escape (l : List Char) : unescapeList (l.flatMap escList) = l := by
  induction l with
  | nil => rfl
  | cons c cs ih =>
    by_cases h : c = '~'
    · subst h
      have e : ('~' :: cs).flatMap escList = '~' :: '0' :: cs.flatMap escList := by
        simp [escList]
      rw [e]
      simp only [unescapeList, ih]
      simp
    · by_cases h' : c = '/'
      · subst h'
        have e : ('/' :: cs).flatMap escList = '~' :: '1' :: cs.flatMap escList := by
          simp [escList]
        rw [e]
        simp only [unescapeList, ih]
        simp
      · have hc : escList c = [c] := by simp [escList, h, h']
        rw [List.flatMap_cons, hc, List.singleton_append]
        cases hr : cs.flatMap escList with
        | nil =>
          rw [hr] at ih
          simp only [unescapeList] at ih ⊢
          rw [← ih]
        | cons d r =>
          rw [hr] at ih
          simp [unescapeList, h, ih]

theorem escape_no_slash (l : List Char) : '/' ∉ l.flatMap escList := by
  induction l with
  | nil => simp
  | cons c cs ih =>
    by_cases h : c = '~'
    · subst h
      simpa [escList] using ih
    · by_cases h' : c = '/'
      · subst h'
        simpa [escList] using ih
      · have h2 : ¬ '/' = c := fun e => h' e.symm
        simpa [escList, h, h', h2] using ih

theorem escape_tilde_followed (l : List Char) (i : Nat)
    (h : (l.flatMap escList)[i]? = some '~') :
    (l.flatMap escList)[i + 1]? = some '0' ∨ (l.flatMap escList)[i + 1]? = some '1' := by
  induction l generalizing i with
  | nil => simp at h
  | cons c cs ih =>
    by_cases hc : c = '~'
    · subst hc
      have e : ('~' :: cs).flatMap escList = '~' :: '0' :: cs.flatMap escList := by
        simp [escList]
      rw [e] at h ⊢
      match i, h with
      | 0, _ => simp
      | 1, h => simp at h
      | j + 2, h =>
        simp only [List.getElem?_cons_succ] at h ⊢
        exact ih j h
    · by_cases hc' : c = '/'
      · subst hc'
        have e : ('/' :: cs).flatMap escList = '~' :: '1' :: cs.flatMap escList := by
          simp [escList]
        rw [e] at h ⊢
        match i, h with
        | 0, _ => simp
        | 1, h => simp at h
        | j + 2, h =>
          simp only [List.getElem?_cons_succ] at h ⊢
          exact ih j h
      · have e : (c :: cs).flatMap escList = c :: cs.flatMap escList := by
          simp [escList, hc, hc']
        rw [e] at h ⊢
        match i, h with
        | 0, h => simp [hc] at h
        | j + 1, h =>
          simp only [List.getElem?_cons_succ] at h ⊢
          exact ih j h

theorem escape_length (l : List Char) :
    (l.flatMap escList).length = l.length + l.count '~' + l.count '/' := by
  induction l with
  | nil => rfl
  | cons c cs ih =>
    by_cases h : c = '~'
    · subst h
      simp [escList, ih, List.count_cons]
      omega
    · by_cases h' : c = '/'
      · subst h'
        simp [escList, ih, List.count_cons]
        omega
      · simp [escList, ih, List.count_cons, h, h']
        omega

theorem reversed_length (l : List Char) :
    (l.flatMap revList).length = l.length + l.count '~' + 2 * l.count '/' := by
  induction l with
  | nil => rfl
  | cons c cs ih =>
    by_cases h : c = '/'
    · subst h
      simp [revList, ih, List.count_cons]
      omega
    · by_cases h' : c = '~'
      · subst h'
        simp [revList, ih, List.count_cons]
        omega
      · simp [revList, ih, List.count_cons, h, h']
        omega

theorem escape_plain (l : List Char) (h1 : '~' ∉ l) (h2 : '/' ∉ l) :
    l.flatMap escList = l := by
  induction l with
  | nil => rfl
  | cons c cs ih =>
    simp only [List.mem_cons, not_or] at h1 h2
    have a : ¬ c = '~' := fun e => h1.1 e.symm
    have b : ¬ c = '/' := fun e => h2.1 e.symm
    simp [escList, a, b, ih h1.2 h2.2]

theorem reversed_no_slash (l : List Char) (h : '/' ∉ l) :
    l.flatMap revList = l.flatMap escList := by
  induction l with
  | nil => rfl
  | cons c cs ih =>
    simp only [List.mem_cons, not_or] at h
    have b : ¬ c = '/' := fun e => h.1 e.symm
    simp only [List.flatMap_cons, ih h.2]
    congr 1
    by_cases a : c = '~'
    · simp [revList, escList, a]
    · simp [revList, escList, a, b]

theorem escape_count_tilde (l : List Char) :
    (l.flatMap escList).count '~' = l.count '~' + l.count '/' := by
  induction l with
  | nil => rfl
  | cons c cs ih =>
    by_cases h : c = '~'
    · subst h
      simp [escList, ih, List.count_cons]
      omega
    · by_cases h' : c = '/'
      · subst h'
        simp [escList, ih, List.count_cons]
        omega
      · simp [escList, ih, List.count_cons, h, h']

theorem escapeChar_data (c : Char) : (escapeChar c).data = escList c := by
  by_cases h : c = '~'
  · subst h
    rfl
  · by_cases h' : c = '/'
    · subst h'
      rfl
    · simp [escapeChar, escList, h, h']

theorem escapeReference_data (s : String) :
    (escapeReference s).data = s.data.flatMap escList := by
  simp only [escapeReference, String.data_join, List.map_map]
  induction s.data with
  | nil => rfl
  | cons c cs ih =>
    simp only [List.map_cons, List.flatten_cons, List.flatMap_cons, ih, Function.comp_apply,
      escapeChar_data]

/-! ## Properties of `EscapeJSONPointer` -/

/-- C1: for every string, `EscapeJSONPointer` equals the character-by-character
reference transform (`~` to `~0`, `/` to `~1`, anything else unchanged), and it
maps `a~b/c` to `a~0b~1c` and `kube-vip.io/has-ip` to `kube-vip.io~1has-ip`. -/
theorem EscapeJSONPointer_eq_reference :
    (∀ s : String, EscapeJSONPointer s = escapeReference s) ∧
    EscapeJSONPointer "a~b/c" = "a~0b~1c" ∧
    EscapeJSONPointer "kube-vip.io/has-ip" = "kube-vip.io~1has-ip" := by
  refine ⟨fun s => ?_, by decide, by decide⟩
  apply String.ext
  rw [EscapeJSONPointer_data, escapeReference_data]

/-- C8: escaping twice differs from escaping once on every string that contains
a `~` or a `/`, and a string that contains neither is returned unchanged. -/
theorem EscapeJSONPointer_not_idempotent :
    (∀ s : String, '~' ∈ s.data ∨ '/' ∈ s.data →
      EscapeJSONPointer (EscapeJSONPointer s) ≠ EscapeJSONPointer s) ∧
    (∀ s : String, '~' ∉ s.data → '/' ∉ s.data → EscapeJSONPointer s = s) := by
  constructor
  · intro s hs heq
    have h1 := congrArg (fun t : String => t.data.length) heq
    simp only [EscapeJSONPointer_data, escape_length, escape_count_tilde] at h1
    have hpos : 0 < s.data.count '~' + s.data.count '/' := by
      rcases hs with h | h
      · have := List.count_pos_iff.mpr h
        omega
      · have := List.count_pos_iff.mpr h
        omega
    omega
  · intro s h1 h2
    apply String.ext
    rw [EscapeJSONPointer_data, escape_plain _ h1 h2]

/-- Instance of C8 at `a~b/c` (which needs escaping) and at `abc` (which does
not). -/
theorem EscapeJSONPointer_not_idempotent_witness :
    ('~' ∈ "a~b/c".data ∨ '/' ∈ "a~b/c".data) ∧
    EscapeJSONPointer (EscapeJSONPointer "a~b/c") ≠ EscapeJSONPointer "a~b/c" ∧
    '~' ∉ "abc".data ∧ '/' ∉ "abc".data ∧ EscapeJSONPointer "abc" = "abc" :=
  ⟨by decide, EscapeJSONPointer_not_idempotent.1 "a~b/c" (by decide), by decide, by decide,
    EscapeJSONPointer_not_idempotent.2 "abc" (by decide) (by decide)⟩

/-- C9: applying the two replacements in the opposite order (`/` first, then
`~`) gives a different result from `EscapeJSONPointer` on every string that
contains a `/` (for `/` itself: `~01` instead of `~1`), and the same result on
every string without a `/`. -/
theorem EscapeJSONPointer_order_sensitive :
    (∀ s : String, '/' ∈ s.data → escapeSlashFirst s ≠ EscapeJSONPointer s) ∧
    (∀ s : String, '/' ∉ s.data → escapeSlashFirst s = EscapeJSONPointer s) ∧
    escapeSlashFirst "/" = "~01" ∧ EscapeJSONPointer "/" = "~1" := by
  refine ⟨?_, ?_, by decide, by decide⟩
  · intro s hs heq
    have h1 := congrArg (fun t : String => t.data.length) heq
    simp only [EscapeJSONPointer_data, escapeSlashFirst_data, escape_length,
      reversed_length] at h1
    have := List.count_pos_iff.mpr hs
    omega
  · intro s hs
    apply String.ext
    rw [EscapeJSONPointer_data, escapeSlashFirst_data, reversed_no_slash _ hs]

/-- Instance of C9 at `a/b` (contains a `/`) and at `a~b` (does not). -/
theorem EscapeJSONPointer_order_sensitive_witness :
    '/' ∈ "a/b".data ∧ escapeSlashFirst "a/b" ≠ EscapeJSONPointer "a/b" ∧
    '/' ∉ "a~b".data ∧ escapeSlashFirst "a~b" = EscapeJSONPointer "a~b" :=
  ⟨by decide, EscapeJSONPointer_order_sensitive.1 "a/b" (by decide), by decide,
    EscapeJSONPointer_order_sensitive.2.1 "a~b" (by decide)⟩

/-- C10: `EscapeJSONPointer` is injective; its output contains no `/`; every
`~` of its output is immediately followed by `0` or `1`; hence two different
label keys never give the same patch path. -/
theorem EscapeJSONPointer_injective_wellformed :
    (∀ s t : String, EscapeJSONPointer s = EscapeJSONPointer t → s = t) ∧
    (∀ s : String, '/' ∉ (EscapeJSONPointer s).data) ∧
    (∀ (s : String) (i : Nat), (EscapeJSONPointer s).data[i]? = some '~' →
      (EscapeJSONPointer s).data[i + 1]? = some '0' ∨
      (EscapeJSONPointer s).data[i + 1]? = some '1') ∧
    (∀ s t : String, "/metadata/labels/" ++ EscapeJSONPointer s =
      "/metadata/labels/" ++ EscapeJSONPointer t → s = t) := by
  have inj : ∀ s t : String, EscapeJSONPointer s = EscapeJSONPointer t → s = t := by
    intro s t h
    have h1 := congrArg (fun u : String => unescapeList u.data) h
    simp only [EscapeJSONPointer_data, unescapeList_escape] at h1
    exact String.ext h1
  refine ⟨inj, ?_, ?_, ?_⟩
  · intro s
    rw [EscapeJSONPointer_data]
    exact escape_no_slash _
  · intro s i h
    rw [EscapeJSONPointer_data] at h ⊢
    exact escape_tilde_followed _ i h
  · intro s t h
    apply inj
    have h1 := congrArg String.data h
    simp only [String.data_append] at h1
    exact String.ext (List.append_cancel_left h1)

/-- Instance of C10: `a~b/c` is the only string escaped to `a~0b~1c`, and the
`~` at position 1 of that output is followed by `0`. -/
theorem EscapeJSONPointer_injective_wellformed_witness :
    EscapeJSONPointer "a~b/c" = EscapeJSONPointer (String.mk ['a', '~', 'b', '/', 'c']) ∧
    "a~b/c" = String.mk ['a', '~', 'b', '/', 'c'] ∧
    (EscapeJSONPointer "a~b/c").data[1]? = some '~' ∧
    ((EscapeJSONPointer "a~b/c").data[1 + 1]? = some '0' ∨
      (EscapeJSONPointer "a~b/c").data[1 + 1]? = some '1') :=
  ⟨by decide,
    EscapeJSONPointer_injective_wellformed.1 "a~b/c" (String.mk ['a', '~', 'b', '/', 'c'])
      (by decide),
    by decide,
    EscapeJSONPointer_injective_wellformed.2.2.1 "a~b/c" 1 (by decide)⟩

/-! ## Properties of `applyNodeLabel` -/

theorem patchCalls_applyPatchLabels {σ β : Type}
    (Marshal : List patchStringLabel → Except String β) (clientSet : Clientset σ β) (st : σ)
    (name operation path value : String) :
    patchCalls (applyPatchLabels Marshal clientSet st name operation path value).2 =
      match Marshal [⟨operation, path, value⟩] with
      | .error _ => []
      | .ok patchData => [(name, JSONPatchType, patchData)] := by
  simp only [applyPatchLabels]
  cases Marshal [⟨operation, path, value⟩] with
  | error e => rfl
  | ok d =>
    simp only
    rcases clientSet.Patch st name JSONPatchType d with ⟨r, st2⟩
    cases r <;> rfl

theorem patchCalls_applyNodeLabel {σ β : Type}
    (Marshal : List patchStringLabel → Except String β) (clientSet : Clientset σ β) (st : σ)
    (label id identity : String) :
    patchCalls (applyNodeLabel Marshal clientSet st label id identity).2 =
      match clientSet.Get st id with
      | .error _ => []
      | .ok node =>
        if (!(node.Labels label).isSome) && id == identity then
          patchCalls (applyPatchLabels Marshal clientSet st id "add"
            ("/metadata/labels/" ++ EscapeJSONPointer label) "true").2
        else if (node.Labels label).isSome then
          patchCalls (applyPatchLabels Marshal clientSet st id "remove"
            ("/metadata/labels/" ++ EscapeJSONPointer label) "true").2
        else [] := by
  simp only [applyNodeLabel]
  cases clientSet.Get st id with
  | error e => rfl
  | ok node =>
    simp only
    split
    · rfl
    · split <;> rfl

/-- C2: when the node read succeeds (and the patch list can be serialised),
the patch calls follow the decision table: label absent and `id = identity`
gives exactly one `add` patch; label present gives exactly one `remove` patch,
whether or not `id = identity`; label absent and `id ≠ identity` gives no
patch call. -/
theorem applyNodeLabel_decision_table {σ β : Type}
    (Marshal : List patchStringLabel → Except String β) (clientSet : Clientset σ β) (st : σ)
    (label id identity : String) (node : Node) (dAdd dRemove : β)
    (hget : clientSet.Get st id = .ok node)
    (hadd : Marshal [⟨"add", "/metadata/labels/" ++ EscapeJSONPointer label, "true"⟩]
      = .ok dAdd)
    (hremove : Marshal [⟨"remove", "/metadata/labels/" ++ EscapeJSONPointer label, "true"⟩]
      = .ok dRemove) :
    ((node.Labels label).isSome = false ∧ id = identity →
      patchCalls (applyNodeLabel Marshal clientSet st label id identity).2
        = [(id, JSONPatchType, dAdd)]) ∧
    ((node.Labels label).isSome = true →
      patchCalls (applyNodeLabel Marshal clientSet st label id identity).2
        = [(id, JSONPatchType, dRemove)]) ∧
    ((node.Labels label).isSome = false ∧ id ≠ identity →
      patchCalls (applyNodeLabel Marshal clientSet st label id identity).2 = []) := by
  rw [patchCalls_applyNodeLabel, hget]
  simp only [patchCalls_applyPatchLabels, hadd, hremove]
  refine ⟨?_, ?_, ?_⟩
  · rintro ⟨h1, h2⟩
    simp [h1, h2]
  · intro h1
    simp [h1]
  · rintro ⟨h1, h2⟩
    simp [h1, h2]

/-- Instance of C2 on the modelled API server: the three rows of the table for
the target `node-a`. -/
theorem applyNodeLabel_decision_table_witness :
    patchCalls (applyNodeLabel Except.ok apiServer clusterUnlabelled nodeLabelIndex
        "node-a" "node-a").2
      = [("node-a", JSONPatchType,
          [⟨"add", "/metadata/labels/" ++ EscapeJSONPointer nodeLabelIndex, "true"⟩])] ∧
    patchCalls (applyNodeLabel Except.ok apiServer clusterLabelled nodeLabelIndex
        "node-a" "node-b").2
      = [("node-a", JSONPatchType,
          [⟨"remove", "/metadata/labels/" ++ EscapeJSONPointer nodeLabelIndex, "true"⟩])] ∧
    patchCalls (applyNodeLabel Except.ok apiServer clusterUnlabelled nodeLabelIndex
        "node-a" "node-b").2 = [] :=
  ⟨(applyNodeLabel_decision_table Except.ok apiServer clusterUnlabelled nodeLabelIndex
      "node-a" "node-a" ⟨fun _ => none⟩ _ _ rfl rfl rfl).1 ⟨rfl, rfl⟩,
    (applyNodeLabel_decision_table Except.ok apiServer clusterLabelled nodeLabelIndex
      "node-a" "node-b" ⟨fun k => if k = nodeLabelIndex then some "true" else none⟩ _ _
      rfl rfl rfl).2.1 (by decide),
    (applyNodeLabel_decision_table Except.ok apiServer clusterUnlabelled nodeLabelIndex
      "node-a" "node-b" ⟨fun _ => none⟩ _ _ rfl rfl rfl).2.2 ⟨rfl, by decide⟩⟩

/-- C4: every patch `applyNodeLabel` issues goes to the node named by the
target id as a JSON Patch whose body is the serialisation of a list of exactly
one operation, with op `add` or `remove`, path `/metadata/labels/` followed by
the escaped label key, and value `true` (for `remove` as well); for the key
`kube-vip.io/has-ip` the path is `/metadata/labels/kube-vip.io~1has-ip`. -/
theorem applyNodeLabel_patch_shape {σ β : Type}
    (Marshal : List patchStringLabel → Except String β) (clientSet : Clientset σ β) (st : σ)
    (label id identity : String) :
    (∀ (name pt : String) (data : β),
      (name, pt, data) ∈ patchCalls (applyNodeLabel Marshal clientSet st label id identity).2 →
      name = id ∧ pt = JSONPatchType ∧
      ∃ op : String, (op = "add" ∨ op = "remove") ∧
        Marshal [⟨op, "/metadata/labels/" ++ EscapeJSONPointer label, "true"⟩] = .ok data) ∧
    "/metadata/labels/" ++ EscapeJSONPointer "kube-vip.io/has-ip"
      = "/metadata/labels/kube-vip.io~1has-ip" := by
  refine ⟨?_, by decide⟩
  intro name pt data hmem
  rw [patchCalls_applyNodeLabel] at hmem
  cases hg : clientSet.Get st id with
  | error e =>
    rw [hg] at hmem
    simp at hmem
  | ok node =>
    rw [hg] at hmem
    simp only [patchCalls_applyPatchLabels] at hmem
    split at hmem
    · cases hm : Marshal [⟨"add", "/metadata/labels/" ++ EscapeJSONPointer label, "true"⟩] with
      | error e =>
        rw [hm] at hmem
        simp at hmem
      | ok d =>
        rw [hm] at hmem
        simp only [List.mem_singleton, Prod.mk.injEq] at hmem
        obtain ⟨h1, h2, h3⟩ := hmem
        subst h1 h2 h3
        exact ⟨rfl, rfl, "add", Or.inl rfl, hm⟩
    · split at hmem
      · cases hm : Marshal
            [⟨"remove", "/metadata/labels/" ++ EscapeJSONPointer label, "true"⟩] with
        | error e =>
          rw [hm] at hmem
          simp at hmem
        | ok d =>
          rw [hm] at hmem
          simp only [List.mem_singleton, Prod.mk.injEq] at hmem
          obtain ⟨h1, h2, h3⟩ := hmem
          subst h1 h2 h3
          exact ⟨rfl, rfl, "remove", Or.inr rfl, hm⟩
      · simp at hmem

/-- Instance of C4 on the modelled API server: the patch issued for the
unlabelled leader `node-a`. -/
theorem applyNodeLabel_patch_shape_witness :
    (("node-a", JSONPatchType,
        [(⟨"add", "/metadata/labels/kube-vip.io~1has-ip", "true"⟩ : patchStringLabel)])
      ∈ patchCalls (applyNodeLabel Except.ok apiServer clusterUnlabelled nodeLabelIndex
          "node-a" "node-a").2) ∧
    ("node-a" = "node-a" ∧ JSONPatchType = JSONPatchType ∧
      ∃ op : String, (op = "add" ∨ op = "remove") ∧
        (Except.ok [⟨op, "/metadata/labels/" ++ EscapeJSONPointer nodeLabelIndex, "true"⟩] :
          Except String (List patchStringLabel))
          = .ok [⟨"add", "/metadata/labels/kube-vip.io~1has-ip", "true"⟩]) :=
  ⟨by decide,
    (applyNodeLabel_patch_shape Except.ok apiServer clusterUnlabelled nodeLabelIndex
      "node-a" "node-a").1 "node-a" JSONPatchType
      [⟨"add", "/metadata/labels/kube-vip.io~1has-ip", "true"⟩] (by decide)⟩

/-- C5: every run of `applyNodeLabel` makes at most one patch call; when the
node read fails it makes none, leaves the server state as it was, and still
returns (the routine has no error result). -/
theorem applyNodeLabel_patch_count {σ β : Type}
    (Marshal : List patchStringLabel → Except String β) (clientSet : Clientset σ β) (st : σ)
    (label id identity : String) :
    (patchCalls (applyNodeLabel Marshal clientSet st label id identity).2).length ≤ 1 ∧
    (∀ e : String, clientSet.Get st id = .error e →
      patchCalls (applyNodeLabel Marshal clientSet st label id identity).2 = [] ∧
      (applyNodeLabel Marshal clientSet st label id identity).1 = st ∧
      (applyNodeLabel Marshal clientSet st label id identity).2
        = [.Get id, .Errorf "can\x27t query node %s labels. error: %v"]) := by
  constructor
  · rw [patchCalls_applyNodeLabel]
    simp only [patchCalls_applyPatchLabels]
    split
    · simp
    · split
      · split <;> simp
      · split
        · split <;> simp
        · simp
  · intro e he
    unfold applyNodeLabel
    rw [he]
    exact ⟨rfl, rfl, rfl⟩

/-- Instance of C5 on the modelled API server: reading `node-a` from a cluster
without nodes fails with `not found`. -/
theorem applyNodeLabel_patch_count_witness :
    apiServer.Get clusterEmpty "node-a" = .error "not found" ∧
    patchCalls (applyNodeLabel Except.ok apiServer clusterEmpty nodeLabelIndex
      "node-a" "node-a").2 = [] ∧
    labelOf (applyNodeLabel Except.ok apiServer clusterEmpty nodeLabelIndex
      "node-a" "node-a").1 "node-a" nodeLabelIndex = labelOf clusterEmpty "node-a" nodeLabelIndex :=
  ⟨rfl,
    ((applyNodeLabel_patch_count Except.ok apiServer clusterEmpty nodeLabelIndex
      "node-a" "node-a").2 "not found" rfl).1,
    congrArg (fun c => labelOf c "node-a" nodeLabelIndex)
      ((applyNodeLabel_patch_count Except.ok apiServer clusterEmpty nodeLabelIndex
        "node-a" "node-a").2 "not found" rfl).2.1⟩

/-! ## `applyNodeLabel` against the modelled API server -/

theorem isPrefixOf_append_self (p x : List Char) : p.isPrefixOf (p ++ x) = true := by
  induction p with
  | nil => simp [List.isPrefixOf]
  | cons c cs ih => simp [List.isPrefixOf, ih]

/-- The constant `nodeLabelJSONPath` is the escaped form of `nodeLabelIndex`. -/
theorem nodeLabelJSONPath_eq : EscapeJSONPointer nodeLabelIndex = nodeLabelJSONPath := by
  decide

theorem labelKeyOfPath_escape (label : String) :
    labelKeyOfPath ("/metadata/labels/" ++ EscapeJSONPointer label) = some label := by
  have hp : (("/metadata/labels/" : String) ++ EscapeJSONPointer label).data
      = "/metadata/labels/".data ++ label.data.flatMap escList := by
    rw [String.data_append, EscapeJSONPointer_data]
  have hlen : "/metadata/labels/".length = "/metadata/labels/".data.length := rfl
  have hns : (label.data.flatMap escList).contains '/' = false := by
    have := escape_no_slash label.data
    simpa using this
  unfold labelKeyOfPath
  rw [hp, hlen, List.drop_left]
  simp only [isPrefixOf_append_self, hns, if_true, unescapeList_escape]
  rfl

theorem apiServer_labelOf_after (st : Cluster) (label id identity : String)
    (labels : String → Option String) (h : st id = some labels) :
    labelOf (applyNodeLabel Except.ok apiServer st label id identity).1 id label =
      if (labels label).isSome then none
      else if id = identity then some "true" else none := by
  have hg : apiServer.Get st id = .ok ⟨labels⟩ := by simp [apiServer, h]
  have hl : labelOf st id label = labels label := by simp [labelOf, h]
  simp only [applyNodeLabel, hg, applyPatchLabels]
  cases hpres : (labels label).isSome with
  | true =>
    simp [apiServer, h, applyOperations, applyOperation, labelKeyOfPath_escape, hpres, labelOf]
  | false =>
    by_cases hid : id = identity
    · subst hid
      simp [apiServer, h, applyOperations, applyOperation, labelKeyOfPath_escape, hpres, labelOf]
    · have hnone : labels label = none := by
        cases hv : labels label with
        | none => rfl
        | some v => simp [hv] at hpres
      simp [hid, hl, hnone]

/-- C7: on the labelled node `node-a` that is also the leader, `applyNodeLabel`
is not a no-op: it issues one `remove` patch. -/
theorem applyNodeLabel_labelled_leader_issues_remove :
    labelOf clusterLabelled "node-a" nodeLabelIndex = some "true" ∧
    patchCalls (applyNodeLabel Except.ok apiServer clusterLabelled nodeLabelIndex
        "node-a" "node-a").2
      = [("node-a", JSONPatchType,
          [⟨"remove", "/metadata/labels/kube-vip.io~1has-ip", "true"⟩])] := by
  decide

/-- C3: on the labelled node `node-a` that is also the leader, the read and the
patch both succeed and the run ends with the label absent from the leader. -/
theorem applyNodeLabel_labelled_leader_ends_unlabelled :
    (applyNodeLabel Except.ok apiServer clusterLabelled nodeLabelIndex "node-a" "node-a").2
      = [.Get "node-a", .Debugf "node %s labels: %+v",
          .Debugf "removing node label \x60%s=true\x60 on %s",
          .Patch "node-a" JSONPatchType
            [⟨"remove", "/metadata/labels/kube-vip.io~1has-ip", "true"⟩],
          .Debugf "updated node %s labels: %+v"] ∧
    labelOf (applyNodeLabel Except.ok apiServer clusterLabelled nodeLabelIndex
      "node-a" "node-a").1 "node-a" nodeLabelIndex = none := by
  decide

/-- C6: on the unlabelled leader `node-a`, the first run adds the label and a
second run with the same arguments issues a `remove` patch and takes the label
away again, so the mapping after two runs differs from the mapping after one. -/
theorem applyNodeLabel_second_run_undoes_first :
    labelOf (applyNodeLabel Except.ok apiServer clusterUnlabelled nodeLabelIndex
      "node-a" "node-a").1 "node-a" nodeLabelIndex = some "true" ∧
    patchCalls (applyNodeLabel Except.ok apiServer
        (applyNodeLabel Except.ok apiServer clusterUnlabelled nodeLabelIndex
          "node-a" "node-a").1 nodeLabelIndex "node-a" "node-a").2
      = [("node-a", JSONPatchType,
          [⟨"remove", "/metadata/labels/kube-vip.io~1has-ip", "true"⟩])] ∧
    labelOf (applyNodeLabel Except.ok apiServer
        (applyNodeLabel Except.ok apiServer clusterUnlabelled nodeLabelIndex
          "node-a" "node-a").1 nodeLabelIndex "node-a" "node-a").1 "node-a" nodeLabelIndex
      = none := by
  decide

end KubeVip
